import Mathlib

/-!
# Verification of the second-brain search/indexing core

Shallow embedding of the file-catalog scanner, the recall document builder and
the recall query route of the `openclaw-second-brain` repository, together with
proofs about the behaviour its specification describes.

Strings from the JavaScript side are modelled as `List Char` (JS code-unit
sequences; the corpus relevant to the claims is ASCII) with `Nat` offsets, and
JS `number` values that the claims exercise are modelled as `Int` (all
arithmetic involved is exact integer arithmetic).  Calls into the ECMAScript
`Date` built-ins are embedded by their ECMAScript-specified semantics
(`DayFromYear`, `MakeDay`, `MakeFullYear`, `YearFromTime`, `MonthFromTime`).
-/

set_option maxHeartbeats 1000000

/-! ## JS string primitives -/

/-- The ASCII subset of the JS `\s` character class (used by
`String.prototype.trim` and the markdown regexes of the route). -/
def isJsSpace (c : Char) : Bool :=
  c = ' ' || c = '\t' || c = '\n' || c = '\r' || c = '\x0b' || c = '\x0c'

/-- `String.prototype.trim`. -/
def jsTrim (xs : List Char) : List Char :=
  ((xs.dropWhile isJsSpace).reverse.dropWhile isJsSpace).reverse

/-- `String.prototype.slice(a, b)` for non-negative indices (clamped to the
string length, empty when `a ≥ b`). -/
def jsSlice (xs : List Char) (a b : Nat) : List Char :=
  (xs.take b).drop a

/-- `String.prototype.startsWith(pat, i)`. -/
def jsStartsWithAt (xs pat : List Char) (i : Nat) : Bool :=
  pat.isPrefixOf (xs.drop i)

def jsIndexOfFromAux (pat : List Char) : List Char → Nat → Option Nat
  | [], i => if pat.isEmpty then some i else none
  | c :: rest, i =>
    if pat.isPrefixOf (c :: rest) then some i else jsIndexOfFromAux pat rest (i + 1)

/-- `String.prototype.indexOf(pat, start)`: the smallest index `≥ start` at
which `pat` occurs (`none` plays the role of JS `-1`). -/
def jsIndexOfFrom (xs pat : List Char) (start : Nat) : Option Nat :=
  jsIndexOfFromAux pat (xs.drop start) start

/-- `String.prototype.lastIndexOf(pat, fromIndex)`: the largest index
`≤ fromIndex` at which `pat` starts (`none` plays the role of JS `-1`). -/
def jsLastIndexOf (xs pat : List Char) (fromIndex : Nat) : Option Nat :=
  ((List.range (fromIndex + 1)).filter (fun i => pat.isPrefixOf (xs.drop i))).getLast?

/-- ASCII case folding, the fragment of `String.prototype.toLowerCase` the
category aliases exercise. -/
def asciiLower (c : Char) : Char :=
  if 'A' ≤ c ∧ c ≤ 'Z' then Char.ofNat (c.toNat + 32) else c

def jsToLowerCase (s : String) : String :=
  ⟨s.toList.map asciiLower⟩

def jsTrimString (s : String) : String :=
  ⟨jsTrim s.toList⟩

/-- `String.prototype.endsWith`. -/
def jsEndsWith (s suffix : String) : Bool :=
  suffix.toList.isSuffixOf s.toList

/-- `String.prototype.startsWith`. -/
def jsStartsWithString (s pre : String) : Bool :=
  pre.toList.isPrefixOf s.toList

def containsSubAux (pat : List Char) : List Char → Bool
  | [] => pat.isEmpty
  | c :: rest => pat.isPrefixOf (c :: rest) || containsSubAux pat rest

/-- `String.prototype.includes`. -/
def jsIncludes (s sub : String) : Bool :=
  containsSubAux sub.toList s.toList

/-- `Array.prototype.join(sep)` on string lists. -/
def joinSep (sep : List Char) : List (List Char) → List Char
  | [] => []
  | [x] => x
  | x :: y :: rest => x ++ sep ++ joinSep sep (y :: rest)

/-! ## ECMAScript `Date` model

The route validates `YYYY-MM-DD` date boundaries with
`new Date(Date.UTC(year, month - 1, day))` followed by comparing
`getUTCFullYear/getUTCMonth/getUTCDate` against the parsed fields.  The
functions below embed the ECMAScript operations this goes through, at day
granularity (the time-of-day components involved are the constants
`0:00:00.000` and `23:59:59.999`). -/

/-- Gregorian leap-year rule (ECMAScript `DaysInYear`). -/
def isLeapYear (y : Int) : Bool :=
  (y % 4 == 0 && !(y % 100 == 0)) || y % 400 == 0

def daysInYear (y : Int) : Int :=
  if isLeapYear y then 366 else 365

/-- ECMAScript `DayFromYear(y)`: day number of 1 January of year `y`,
relative to the epoch (`/` on `Int` is floor division for this positive
divisor, matching the spec's `floor`). -/
def jsDayFromYear (y : Int) : Int :=
  365 * (y - 1970) + (y - 1969) / 4 - (y - 1901) / 100 + (y - 1601) / 400

/-- First day-within-year of zero-based month `m` (cumulative form of the
ECMAScript month tables); `m ≥ 12` gives the year length. -/
def monthStartDay (leap : Bool) (m : Int) : Int :=
  let il : Int := if leap then 1 else 0
  if m ≤ 0 then 0
  else if m = 1 then 31
  else if m = 2 then 59 + il
  else if m = 3 then 90 + il
  else if m = 4 then 120 + il
  else if m = 5 then 151 + il
  else if m = 6 then 181 + il
  else if m = 7 then 212 + il
  else if m = 8 then 243 + il
  else if m = 9 then 273 + il
  else if m = 10 then 304 + il
  else if m = 11 then 334 + il
  else 365 + il

/-- Days in one-based month `m` of year `y` (the calendar-validity notion the
spec appeals to: "strict calendar validation"). -/
def daysInMonth (y m : Int) : Int :=
  monthStartDay (isLeapYear y) m - monthStartDay (isLeapYear y) (m - 1)

/-- ECMAScript `MakeDay(y, m, d)` with `m` a zero-based month index (possibly
out of `[0, 11]`, in which case the year is adjusted as the spec prescribes). -/
def jsMakeDay (y m d : Int) : Int :=
  let ym := y + m / 12
  let mn := m % 12
  jsDayFromYear ym + monthStartDay (isLeapYear ym) mn + (d - 1)

/-- ECMAScript `MakeFullYear`: `Date.UTC` maps a year argument in `[0, 99]` to
`1900 + year`. -/
def jsMakeFullYear (y : Int) : Int :=
  if 0 ≤ y ∧ y ≤ 99 then 1900 + y else y

def yearUpSearch : Nat → Int → Int → Int
  | 0, y, _ => y
  | fuel + 1, y, day =>
    if jsDayFromYear (y + 1) ≤ day then yearUpSearch fuel (y + 1) day else y

def yearDownSearch : Nat → Int → Int → Int
  | 0, y, _ => y
  | fuel + 1, y, day =>
    if day < jsDayFromYear y then yearDownSearch fuel (y - 1) day else y

/-- ECMAScript `YearFromTime` at day granularity: the `y` with
`DayFromYear(y) ≤ day < DayFromYear(y + 1)`, computed by searching outward
from 1970 (the fuel covers every year reachable from four-digit input). -/
def jsYearFromDay (day : Int) : Int :=
  if jsDayFromYear 1970 ≤ day then yearUpSearch 20000 1970 day
  else yearDownSearch 20000 1969 day

def jsDayWithinYear (day : Int) : Int :=
  day - jsDayFromYear (jsYearFromDay day)

/-- ECMAScript `MonthFromTime` via the cumulative month table. -/
def monthFromDayWithinYear (leap : Bool) (dwy : Int) : Int :=
  let il : Int := if leap then 1 else 0
  if dwy < 31 then 0
  else if dwy < 59 + il then 1
  else if dwy < 90 + il then 2
  else if dwy < 120 + il then 3
  else if dwy < 151 + il then 4
  else if dwy < 181 + il then 5
  else if dwy < 212 + il then 6
  else if dwy < 243 + il then 7
  else if dwy < 273 + il then 8
  else if dwy < 304 + il then 9
  else if dwy < 334 + il then 10
  else 11

/-- `getUTCMonth` of a day number (zero-based month). -/
def jsMonthFromDay (day : Int) : Int :=
  monthFromDayWithinYear (isLeapYear (jsYearFromDay day)) (jsDayWithinYear day)

/-- `getUTCDate` of a day number (one-based day of month). -/
def jsDateFromDay (day : Int) : Int :=
  jsDayWithinYear day
    - monthStartDay (isLeapYear (jsYearFromDay day)) (jsMonthFromDay day) + 1

/-! ## Filename date pattern (recall-index.ts `parseDateFromFilename`) -/

/-- Match the fixed-shape regex fragment `\d{4}-\d{2}-\d{2}` at the head of the
character list, returning the three digit groups as numbers. -/
def matchDatePatternAt : List Char → Option (Int × Int × Int)
  | a :: b :: c :: d :: '-' :: e :: f :: '-' :: g :: h :: _ =>
    if a.isDigit && b.isDigit && c.isDigit && d.isDigit && e.isDigit && f.isDigit
        && g.isDigit && h.isDigit then
      some
        ((a.toNat - 48) * 1000 + (b.toNat - 48) * 100 + (c.toNat - 48) * 10 + (d.toNat - 48),
         (e.toNat - 48) * 10 + (f.toNat - 48),
         (g.toNat - 48) * 10 + (h.toNat - 48))
    else none
  | _ => none

/-- Leftmost match of `(\d{4})-(\d{2})-(\d{2})` in a string, as its digit
groups (the regex has fixed-width pieces, so the leftmost match is found by
trying each start position in order). -/
def findDatePattern : List Char → Option (Int × Int × Int)
  | [] => none
  | c :: rest =>
    match matchDatePatternAt (c :: rest) with
    | some r => some r
    | none => findDatePattern rest

/-- `path.basename` for normalized POSIX paths without trailing separators. -/
def jsBasename (p : String) : String :=
  ⟨(p.toList.reverse.takeWhile (· ≠ '/')).reverse⟩

/-- `parseDateFromFilename` of `recall-index.ts`: first `YYYY-MM-DD` pattern in
the filename, validated through `new Date(Date.UTC(...))` and the
`getUTCFullYear/Month/Date` round-trip, yielding epoch milliseconds. -/
def parseDateFromFilename (name : String) : Option Int :=
  match findDatePattern name.toList with
  | none => none
  | some (year, month, day) =>
    let yr := jsMakeFullYear year
    let dayNum := jsMakeDay yr (month - 1) day
    if jsYearFromDay dayNum = year ∧ jsMonthFromDay dayNum = month - 1
        ∧ jsDateFromDay dayNum = day then
      some (86400000 * dayNum)
    else none

/-! ## Data model (file-index.ts) -/

/-- The configured root directories (resolved absolute paths).  The embedding
treats paths as already-normalized absolute POSIX strings, on which
`path.resolve(path.normalize(·))` acts as the identity. -/
structure SbConfig where
  workspaceRoot : String
  memoryDir : String
  conversationsDir : String
  sessionsDir : String

/-- `FileNode` descriptor produced by the scanner. -/
structure FileNode where
  name : String
  path : String
  category : String
  type : String
deriving DecidableEq, Repr

structure FileSnapshot where
  version : Int
  updatedAt : Int
  files : List FileNode
deriving DecidableEq, Repr

/-- One `readdirSync(..., { withFileTypes: true })` entry: only the name and
the `isFile()` discriminant are consulted by the scanner. -/
inductive DirEntry where
  | fileE (name : String)
  | subdirE (name : String)
  | otherE (name : String)
deriving DecidableEq, Repr

def DirEntry.name : DirEntry → String
  | .fileE n => n
  | .subdirE n => n
  | .otherE n => n

/-- File-system state consumed by the scanner: the listing of each directory
(`none` when the directory does not exist or `readdirSync` throws — both make
the scanner contribute nothing) and per-path `existsSync`. -/
structure ScanFs where
  dirListing : String → Option (List DirEntry)
  pathExists : String → Bool

def isHiddenName (name : String) : Bool :=
  jsStartsWithString name "."

/-- `path.join(dir, name)` for the POSIX separator. -/
def joinPath (dir name : String) : String :=
  dir ++ "/" ++ name

def WORKSPACE_DOCS : List String :=
  ["SOUL.md", "IDENTITY.md", "USER.md", "RULES.md", "TOOLS.md", "AGENTS.md", "HEARTBEAT.md"]

def LONG_TERM_FILE : String := "MEMORY.md"

def EXCLUDED_REPORT_NAMES : List String :=
  WORKSPACE_DOCS ++ [LONG_TERM_FILE]

/-- `scanMarkdownDirectory(dirPath, category)`: the immediate entries of
`dirPath` that are files, non-hidden and end in `.md` (note: `readdirSync` is
not called recursively, and non-file entries are skipped). -/
def scanMarkdownDirectory (fsys : ScanFs) (dirPath category : String) : List FileNode :=
  match fsys.dirListing dirPath with
  | none => []
  | some entries =>
    entries.filterMap fun e =>
      match e with
      | .fileE name =>
        if isHiddenName name || !(jsEndsWith name ".md") then none
        else some ⟨name, joinPath dirPath name, category, "file"⟩
      | _ => none

/-- `scanWorkspaceReports()`. -/
def scanWorkspaceReports (cfg : SbConfig) (fsys : ScanFs) : List FileNode :=
  match fsys.dirListing cfg.workspaceRoot with
  | none => []
  | some entries =>
    entries.filterMap fun e =>
      match e with
      | .fileE name =>
        if isHiddenName name || !(jsEndsWith name ".md")
            || EXCLUDED_REPORT_NAMES.contains name then none
        else some ⟨name, joinPath cfg.workspaceRoot name, "Reports", "file"⟩
      | _ => none

/-- `scanSessionTranscripts()`. -/
def scanSessionTranscripts (cfg : SbConfig) (fsys : ScanFs) : List FileNode :=
  match fsys.dirListing cfg.sessionsDir with
  | none => []
  | some entries =>
    entries.filterMap fun e =>
      match e with
      | .fileE name =>
        if isHiddenName name || !(jsEndsWith name ".jsonl")
            || jsIncludes name ".deleted." then none
        else some ⟨name, joinPath cfg.sessionsDir name, "Sessions", "file"⟩
      | _ => none

/-- `scanAllFiles()`: memory and conversations markdown, the long-term file,
the fixed workspace docs, workspace reports and session transcripts. -/
def scanAllFiles (cfg : SbConfig) (fsys : ScanFs) : List FileNode :=
  scanMarkdownDirectory fsys cfg.memoryDir "Memory"
    ++ scanMarkdownDirectory fsys cfg.conversationsDir "Conversations"
    ++ (if fsys.pathExists (joinPath cfg.workspaceRoot LONG_TERM_FILE) then
         [⟨LONG_TERM_FILE, joinPath cfg.workspaceRoot LONG_TERM_FILE, "Long-term", "file"⟩]
        else [])
    ++ (WORKSPACE_DOCS.filterMap fun docName =>
         if fsys.pathExists (joinPath cfg.workspaceRoot docName) then
           some ⟨docName, joinPath cfg.workspaceRoot docName, "Workspace Docs", "file"⟩
         else none)
    ++ scanWorkspaceReports cfg fsys
    ++ scanSessionTranscripts cfg fsys

/-- `FileIndexService.rebuildIndex()` acting on the snapshot: fresh scan
result, version incremented, timestamp refreshed. -/
def rebuildSnapshot (files : List FileNode) (now : Int) (s : FileSnapshot) : FileSnapshot :=
  { version := s.version + 1, updatedAt := now, files := files }

/-- The snapshot published after a sequence of rebuilds, each carrying the
scan result and the `Date.now()` observed at that rebuild.  The service
starts from `{ version := 0, updatedAt := t0, files := [] }` (the field
initializer) and the constructor immediately performs the first rebuild,
which is the head of the event list. -/
def snapshotAfter (init : FileSnapshot) (events : List (List FileNode × Int)) : FileSnapshot :=
  events.foldl (fun s e => rebuildSnapshot e.1 e.2 s) init

/-! ## Recall document model (recall-index.ts) -/

inductive RecallCategory where
  | memory
  | conversations
  | workspace
  | sessions
deriving DecidableEq, Repr

def RECALL_CATEGORY_ORDER : List RecallCategory :=
  [.memory, .conversations, .workspace, .sessions]

/-- `mapToRecallCategory`: collapse the six raw scanner categories into the
four recall categories. -/
def mapToRecallCategory (category : String) : Option RecallCategory :=
  if category = "Memory" then some .memory
  else if category = "Conversations" then some .conversations
  else if category = "Sessions" then some .sessions
  else if category = "Long-term" || category = "Workspace Docs" || category = "Reports" then
    some .workspace
  else none

inductive DocKind where
  | markdown
  | session
deriving DecidableEq, Repr

structure RecallDocument where
  id : String
  kind : DocKind
  path : String
  name : String
  category : RecallCategory
  content : List Char
  contextSource : Option (List Char) := none
  timestampMs : Option Int
deriving DecidableEq, Repr

/-- Parsed JSON values (the result of a successful `JSON.parse`; numeric
leaves are the exact integers the transcripts carry). -/
inductive Json where
  | null
  | bool (b : Bool)
  | num (n : Int)
  | str (s : String)
  | arr (elems : List Json)
  | obj (fields : List (String × Json))

/-- JS property access `j.key` on a parsed JSON value: defined field of an
object, `undefined` (here `none`) on every other value. -/
def getField (j : Json) (key : String) : Option Json :=
  match j with
  | .obj fields => (fields.find? (fun f => f.1 == key)).map (·.2)
  | _ => none

/-- One line of a transcript file as seen by `parseSessionFile`: whitespace-only
(skipped before parsing), a line on which `JSON.parse` throws (logged and
skipped), or a parsed record. -/
inductive SessionLine where
  | blank
  | malformed
  | record (j : Json)

structure SessionMessage where
  role : String
  text : List Char
  lineNumber : Nat
  timestampMs : Option Int
deriving DecidableEq, Repr

/-- `extractTextFromContentPart`. -/
def extractTextFromContentPart (part : Json) : List Char :=
  match part with
  | .str s => s.toList
  | .obj _ =>
    (match getField part "type", getField part "text" with
     | some (.str "thinking"), _ => []
     | _, some (.str t) => t.toList
     | _, _ => [])
  | _ => []

/-- `extractMessageText` (the argument is the possibly-absent `content`
property of the message record). -/
def extractMessageText (content : Option Json) : List Char :=
  match content with
  | some (.str s) => jsTrim s.toList
  | some (.arr parts) =>
    jsTrim (joinSep "\n\n".toList
      (((parts.map extractTextFromContentPart).map jsTrim).filter (fun t => !t.isEmpty)))
  | _ => []

/-- `parseTimestamp`, with JS `Date.parse` supplied as an oracle
(`none` standing for `NaN`). -/
def parseTimestampJson (dateParse : String → Option Int) : Option Json → Option Int
  | some (.num n) => some n
  | some (.str s) => dateParse s
  | _ => none

/-- `extractSessionTimestamp`: message-level timestamp, else the enclosing
line record's timestamp. -/
def extractSessionTimestamp (dateParse : String → Option Int) (entry msg : Json) : Option Int :=
  match parseTimestampJson dateParse (getField msg "timestamp") with
  | some t => some t
  | none => parseTimestampJson dateParse (getField entry "timestamp")

/-- `buildSessionContext(messages, centerIndex)`: the rolling window of two
messages on either side, role-labelled, the center marked. -/
def buildSessionContext (messages : List SessionMessage) (centerIndex : Nat) : List Char :=
  let startIndex := centerIndex - 2
  let endIndex := min (messages.length - 1) (centerIndex + 2)
  let parts := (List.range' startIndex (endIndex + 1 - startIndex)).map fun index =>
    let message := messages.getD index ⟨"", [], 0, none⟩
    let roleLabel := if message.role = "user" then "User" else "Assistant"
    let pre := if index = centerIndex then "▶ ".toList else []
    pre ++ roleLabel.toList ++ ": ".toList ++ message.text
  jsTrim (joinSep "\n\n".toList parts)

/-- The per-line body of `parseSessionFile`'s loop: a record contributes a
message only if its type is `"message"`, its `message` field carries a
user/assistant role, and the extracted text is non-empty. -/
def parseSessionLine (dateParse : String → Option Int) (index : Nat) :
    SessionLine → Option SessionMessage
  | .blank => none
  | .malformed => none
  | .record j =>
    match getField j "type", getField j "message" with
    | some (.str "message"), some msg =>
      (match getField msg "role" with
       | some (.str role) =>
         if role = "user" || role = "assistant" then
           let text := extractMessageText (getField msg "content")
           if text.isEmpty then none
           else some ⟨role, text, index + 1, extractSessionTimestamp dateParse j msg⟩
         else none
       | _ => none)
    | _, _ => none

/-- The message-to-document mapping at the end of `parseSessionFile`. -/
def sessionDocsOfMessages (filePath fileName : String) (messages : List SessionMessage) :
    List RecallDocument :=
  messages.enum.map fun p =>
    { id := filePath ++ "#" ++ toString p.2.lineNumber,
      kind := .session,
      path := filePath,
      name := fileName,
      category := .sessions,
      content := p.2.text,
      contextSource := some (buildSessionContext messages p.1),
      timestampMs := p.2.timestampMs }

/-- `parseSessionFile` given the line structure of the file
(`raw.split('\n')`, classified); a file whose `readFileSync` throws is
modelled by the caller passing `none` and yields no documents. -/
def parseSessionFileDocs (dateParse : String → Option Int)
    (filePath fileName : String) (lines : List SessionLine) : List RecallDocument :=
  sessionDocsOfMessages filePath fileName
    (lines.enum.filterMap fun p => parseSessionLine dateParse p.1 p.2)

/-- File contents consumed by the recall index build: for a markdown path the
whole file (`none` when `statSync`/`readFileSync` throws or the path is not a
regular file — the file is then skipped), for a session path the classified
lines (`none` when reading throws — the file then yields no documents). -/
structure RecallFs where
  markdownFile : String → Option String
  sessionFile : String → Option (List SessionLine)

def parseSessionFile (dateParse : String → Option Int) (rfs : RecallFs)
    (filePath fileName : String) : List RecallDocument :=
  match rfs.sessionFile filePath with
  | none => []
  | some lines => parseSessionFileDocs dateParse filePath fileName lines

/-- The mutable state threaded through `buildRecallSearchIndex`'s loop. -/
structure RecallBuildAcc where
  documents : List RecallDocument
  totalIndexedFiles : Nat
  totalIndexedSessions : Nat
  categoriesPresent : List RecallCategory
deriving DecidableEq, Repr

/-- One iteration of the `for (const file of snapshot.files)` loop of
`buildRecallSearchIndex`. -/
def recallBuildStep (dateParse : String → Option Int) (rfs : RecallFs)
    (acc : RecallBuildAcc) (file : FileNode) : RecallBuildAcc :=
  match mapToRecallCategory file.category with
  | none => acc
  | some rc =>
    let cats := if acc.categoriesPresent.contains rc then acc.categoriesPresent
                else acc.categoriesPresent ++ [rc]
    if jsEndsWith file.path ".md" then
      match rfs.markdownFile file.path with
      | some content =>
        { documents := acc.documents ++
            [{ id := file.path,
               kind := .markdown,
               path := file.path,
               name := jsBasename file.path,
               category := rc,
               content := content.toList,
               contextSource := none,
               timestampMs := parseDateFromFilename (jsBasename file.path) }],
          totalIndexedFiles := acc.totalIndexedFiles + 1,
          totalIndexedSessions := acc.totalIndexedSessions,
          categoriesPresent := cats }
      | none =>
        { acc with categoriesPresent := cats }
    else if jsEndsWith file.path ".jsonl" && rc == .sessions then
      { documents := acc.documents
          ++ parseSessionFile dateParse rfs file.path (jsBasename file.path),
        totalIndexedFiles := acc.totalIndexedFiles,
        totalIndexedSessions := acc.totalIndexedSessions + 1,
        categoriesPresent := cats }
    else
      { acc with categoriesPresent := cats }

/-- The observable fields of the `RecallSearchIndex` (the `fuse` engine object
and the wall-clock `builtAt` are external to the embedding). -/
structure RecallIndexModel where
  version : Int
  updatedAt : Int
  documents : List RecallDocument
  totalIndexedFiles : Nat
  totalIndexedSessions : Nat
  categoriesAvailable : List RecallCategory
deriving DecidableEq, Repr

/-- `buildRecallSearchIndex()` as a function of the snapshot it reads and the
file contents it consumes. -/
def buildRecallSearchIndex (dateParse : String → Option Int) (rfs : RecallFs)
    (snapshot : FileSnapshot) : RecallIndexModel :=
  let acc := snapshot.files.foldl (recallBuildStep dateParse rfs) ⟨[], 0, 0, []⟩
  { version := snapshot.version,
    updatedAt := snapshot.updatedAt,
    documents := acc.documents,
    totalIndexedFiles := acc.totalIndexedFiles,
    totalIndexedSessions := acc.totalIndexedSessions,
    categoriesAvailable :=
      RECALL_CATEGORY_ORDER.filter (fun c => acc.categoriesPresent.contains c) }

/-! ## Recall route (api/search/recall/route.ts) -/

/-- `parseDateBoundary` on an input that matched `^(\d{4})-(\d{2})-(\d{2})$`,
as a function of the three digit groups (so `0 ≤ year ≤ 9999`,
`0 ≤ month, day ≤ 99` in every reachable call).  The validation builds
`new Date(Date.UTC(year, month - 1, day))` and compares
`getUTCFullYear/getUTCMonth/getUTCDate` with the parsed fields; on success the
returned epoch milliseconds are `Date.UTC` at midnight (for `date_from`) or at
`23:59:59.999` (for `date_to`). -/
def parseDayOnlyBoundary (isFrom : Bool) (year month day : Int) : Except String Int :=
  let fieldName := if isFrom then "date_from" else "date_to"
  let yr := jsMakeFullYear year
  let dayNum := jsMakeDay yr (month - 1) day
  if jsYearFromDay dayNum = year ∧ jsMonthFromDay dayNum = month - 1
      ∧ jsDateFromDay dayNum = day then
    if isFrom then Except.ok (86400000 * dayNum)
    else Except.ok (86400000 * dayNum + 86399999)
  else Except.error (fieldName ++ " must be a valid date")

/-- Integer fragment of ECMAScript `Number(string)` (optional sign and decimal
digits surrounded by whitespace; every other shape occurring in the claims is
`NaN`, here `none`). -/
def jsStringToNumber (s : String) : Option Int :=
  let t := jsTrim s.toList
  let digitsVal : List Char → Int := fun ds =>
    Int.ofNat (ds.foldl (fun acc c => acc * 10 + (c.toNat - 48)) 0)
  match t with
  | [] => some 0
  | '-' :: ds => if !ds.isEmpty && ds.all Char.isDigit then some (-(digitsVal ds)) else none
  | '+' :: ds => if !ds.isEmpty && ds.all Char.isDigit then some (digitsVal ds) else none
  | ds => if ds.all Char.isDigit then some (digitsVal ds) else none

/-- `normalizeLimit`: clamp a finite numeric value (directly numeric, or a
non-blank string that parses to a finite number) to `[1, 50]` after `floor`
(the identity on this integer model); everything else yields the default 10.
The argument is the raw JSON field, `none` when absent. -/
def normalizeLimit (value : Option Json) : Int :=
  match value with
  | some (.num n) => min 50 (max 1 n)
  | some (.str s) =>
    if jsTrimString s ≠ "" then
      match jsStringToNumber s with
      | some parsed => min 50 (max 1 parsed)
      | none => 10
    else 10
  | _ => 10

def CATEGORY_ALIASES : List (String × List RecallCategory) :=
  [("memory", [.memory]),
   ("conversations", [.conversations]),
   ("workspace", [.workspace]),
   ("sessions", [.sessions]),
   ("reports", [.workspace]),
   ("workspace docs", [.workspace]),
   ("workspace-docs", [.workspace]),
   ("long-term", [.workspace]),
   ("longterm", [.workspace])]

/-- The body of `normalizeCategories`' `for` loop for one entry, acting on the
insertion-ordered set accumulated so far. -/
def normalizeCategoriesStep (accSet : List RecallCategory) (entry : Json) :
    Except String (List RecallCategory) :=
  match entry with
  | .str s =>
    let key := jsToLowerCase (jsTrimString s)
    if key = "" then Except.ok accSet
    else
      match (CATEGORY_ALIASES.find? (fun a => a.1 == key)).map (fun a => a.2) with
      | some mapped =>
        Except.ok (mapped.foldl
          (fun acc c => if acc.contains c then acc else acc ++ [c]) accSet)
      | none => Except.error ("unsupported category: " ++ s)
  | _ => Except.error "categories must only contain strings"

/-- `normalizeCategories`: `none`/null input or an empty (or all-blank) array
mean "no filter"; a non-array or an array holding a non-string is a client
error, as is an unrecognized alias; otherwise the alias-mapped,
insertion-ordered set of recall categories. -/
def normalizeCategories (input : Option Json) : Except String (Option (List RecallCategory)) :=
  match input with
  | none => Except.ok none
  | some .null => Except.ok none
  | some (.arr entries) =>
    if entries.isEmpty then Except.ok none
    else do
      let normalized ← entries.foldlM normalizeCategoriesStep []
      Except.ok (if normalized.isEmpty then none else some normalized)
  | some _ => Except.error "categories must be an array of strings"

/-! ### Markdown excerpt/context extraction -/

/-- Offsets and text of each line of the content (the `m`-flag line structure
of the heading regex: a line starts at offset 0 or after a newline). -/
def lineRecordsAux : List Char → Nat → Nat → List Char → List (Nat × List Char)
  | [], start, _, racc => [(start, racc.reverse)]
  | c :: rest, start, i, racc =>
    if c = '\n' then (start, racc.reverse) :: lineRecordsAux rest (i + 1) (i + 1) []
    else lineRecordsAux rest start (i + 1) (c :: racc)

def lineRecords (content : List Char) : List (Nat × List Char) :=
  lineRecordsAux content 0 0 []

/-- Heading level of a line matching `^(#{1,6})\s+.+$`: one to six hashes, at
least one whitespace character, at least one further character. -/
def headingLevelOfLine (line : List Char) : Option Nat :=
  let hashes := line.takeWhile (fun c => c = '#')
  if 1 ≤ hashes.length ∧ hashes.length ≤ 6 then
    match line.drop hashes.length with
    | c :: rest => if isJsSpace c ∧ rest ≠ [] then some hashes.length else none
    | [] => none
  else none

/-- All ATX headings of the document as `(start offset, level)` pairs, in
document order (the match offsets of `/^(#{1,6})\s+.+$/gm`). -/
def markdownHeadings (content : List Char) : List (Nat × Nat) :=
  (lineRecords content).filterMap fun p =>
    (headingLevelOfLine p.2).map fun lvl => (p.1, lvl)

/-- The `activeHeadingIndex` for-loop: walk the headings in order, remembering
the last index whose start is `≤ matchIndex`, stopping at the first that is
not. -/
def activeHeadingIndexLoop : List (Nat × Nat) → Nat → Nat → Nat → Nat
  | [], _, _, active => active
  | h :: rest, matchIndex, i, active =>
    if h.1 ≤ matchIndex then activeHeadingIndexLoop rest matchIndex (i + 1) i
    else active

/-- `extractMarkdownSection(content, matchIndex)`: the active section (from
the nearest heading at or before the match to the next heading of
equal-or-shallower level), the pre-heading preamble when the match precedes
every heading, `none` when there are no headings, when the section trims to
nothing, or when it exceeds 2500 characters. -/
def extractMarkdownSection (content : List Char) (matchIndex : Nat) : Option (List Char) :=
  let headings := markdownHeadings content
  match headings with
  | [] => none
  | h0 :: _ =>
    let bounds : Nat × Nat :=
      if matchIndex < h0.1 then (0, h0.1)
      else
        let active := activeHeadingIndexLoop headings matchIndex 0 0
        let activeHeading := headings.getD active (0, 0)
        let rest := headings.drop (active + 1)
        (activeHeading.1,
         ((rest.find? (fun h => h.2 ≤ activeHeading.2)).map (fun h => h.1)).getD content.length)
    let sectionText := jsTrim (jsSlice content bounds.1 bounds.2)
    if sectionText.isEmpty then none
    else if 2500 < sectionText.length then none
    else some sectionText

/-- `safeIndex` of `extractMarkdownParagraph`. -/
def safeMatchIndex (content : List Char) (matchIndex : Nat) : Nat :=
  min matchIndex (content.length - 1)

def paragraphStartOf (content : List Char) (safe : Nat) : Nat :=
  match jsLastIndexOf content "\n\n".toList safe with
  | none => 0
  | some boundary => boundary + 2

def paragraphEndOf (content : List Char) (safe : Nat) : Nat :=
  (jsIndexOfFrom content "\n\n".toList safe).getD content.length

/-- The trimmed blank-line-delimited block around the safe index. -/
def rawParagraphOf (content : List Char) (safe : Nat) : List Char :=
  jsTrim (jsSlice content (paragraphStartOf content safe) (paragraphEndOf content safe))

/-- The `±400`-character fallback window used when that block is empty. -/
def fallbackParagraphOf (content : List Char) (safe : Nat) : List Char :=
  jsTrim (jsSlice content (safe - 400) (min content.length (safe + 400)))

def paragraphBaseOf (content : List Char) (safe : Nat) : List Char :=
  if (rawParagraphOf content safe).isEmpty then fallbackParagraphOf content safe
  else rawParagraphOf content safe

/-- The `/^#{1,6}\s/` heading-only test. -/
def headingOnlyTest (paragraph : List Char) : Bool :=
  let hashes := paragraph.takeWhile (fun c => c = '#')
  decide (1 ≤ hashes.length) && decide (hashes.length ≤ 6) &&
    (match paragraph.drop hashes.length with
     | c :: _ => isJsSpace c
     | [] => false)

def nextParagraphStartOf (content : List Char) (pEnd : Nat) : Nat :=
  if jsStartsWithAt content "\n\n".toList pEnd then pEnd + 2 else pEnd

/-- The trimmed block following `pEnd`, used by the one-level look-ahead
merge of `extractMarkdownParagraph`. -/
def nextParagraphOf (content : List Char) (pEnd : Nat) : List Char :=
  let nps := nextParagraphStartOf content pEnd
  jsTrim (jsSlice content nps ((jsIndexOfFrom content "\n\n".toList nps).getD content.length))

/-- `extractMarkdownParagraph(content, matchIndex)`. -/
def extractMarkdownParagraph (content : List Char) (matchIndex : Nat) : List Char :=
  let safe := safeMatchIndex content matchIndex
  let pEnd := paragraphEndOf content safe
  let paragraph := paragraphBaseOf content safe
  if paragraph.isEmpty then []
  else if (headingOnlyTest paragraph ∨ paragraph.length < 80) ∧ pEnd < content.length then
    let nextP := nextParagraphOf content pEnd
    if !nextP.isEmpty then paragraph ++ "\n\n".toList ++ nextP else paragraph
  else paragraph

/-- `normalizeContext`: trim, and truncate with a trailing ellipsis beyond
2200 characters. -/
def normalizeContext (context : List Char) : List Char :=
  let trimmed := jsTrim context
  if trimmed.length ≤ 2200 then trimmed
  else jsTrim (trimmed.take 2200) ++ "...".toList

/-- `buildContext(item, matchIndex)`: session documents use their precomputed
context window (falling back to the content when it is empty/absent);
markdown documents use section extraction, then paragraph extraction. -/
def buildContext (item : RecallDocument) (matchIndex : Nat) : List Char :=
  if item.kind = .session then
    normalizeContext
      (match item.contextSource with
       | some cs => if cs.isEmpty then item.content else cs
       | none => item.content)
  else
    match extractMarkdownSection item.content matchIndex with
    | some sectionText => normalizeContext sectionText
    | none => normalizeContext (extractMarkdownParagraph item.content matchIndex)

/-! ### Date filtering and the result pipeline -/

/-- `isWithinDateRange(item, dateFromMs, dateToMs)`. -/
def isWithinDateRange (item : RecallDocument) (dateFromMs dateToMs : Option Int) : Bool :=
  if dateFromMs = none ∧ dateToMs = none then true
  else
    match item.timestampMs with
    | none => false
    | some ts =>
      if Option.any (fun f => decide (ts < f)) dateFromMs then false
      else if Option.any (fun t => decide (t < ts)) dateToMs then false
      else true

/-- A fuzzy-engine result as the post-filter pipeline sees it: the document
and the engine's score (ascending = better; the exact numeric scale is
engine-internal, modelled by an exact ordered field). -/
structure FuseResultModel where
  item : RecallDocument
  score : Option ℚ
deriving DecidableEq

/-- The filter callback of the `POST` handler: category membership (when a
filter is present) and the date range. -/
def recallResultKeep (categoryFilter : Option (List RecallCategory))
    (dateFromMs dateToMs : Option Int) (r : FuseResultModel) : Bool :=
  match categoryFilter with
  | some cf =>
    if !cf.contains r.item.category then false
    else isWithinDateRange r.item dateFromMs dateToMs
  | none => isWithinDateRange r.item dateFromMs dateToMs

def scoreKey (r : FuseResultModel) : ℚ :=
  r.score.getD 1

/-- Stable ascending insertion by score key (ECMAScript `Array.prototype.sort`
is stable, and its comparator here subtracts the score keys, so the sorted
result is the unique stable ascending reordering). -/
def insertAscByScore (r : FuseResultModel) : List FuseResultModel → List FuseResultModel
  | [] => [r]
  | x :: xs => if scoreKey r ≤ scoreKey x then r :: x :: xs else x :: insertAscByScore r xs

def sortByScore (rs : List FuseResultModel) : List FuseResultModel :=
  rs.foldr insertAscByScore []

/-- The post-search pipeline of the `POST` handler: filter the oversampled
fuzzy results, re-sort by ascending score, truncate to the requested limit. -/
def applyRecallFilters (rawResults : List FuseResultModel)
    (categoryFilter : Option (List RecallCategory))
    (dateFromMs dateToMs : Option Int) (limit : Nat) : List FuseResultModel :=
  (sortByScore (rawResults.filter (recallResultKeep categoryFilter dateFromMs dateToMs))).take limit

/-! ## Content route (api/content/route.ts) and path authorization -/

/-- `path.dirname` for normalized POSIX paths. -/
def jsDirname (p : String) : String :=
  match p.toList.reverse.dropWhile (fun c => c ≠ '/') with
  | '/' :: rest => if rest.isEmpty then "/" else ⟨rest.reverse⟩
  | _ => "."

/-- Whether the (normalized) path lies at or under one of the four configured
roots — the `allowedRoots.some(...)` test of `isAllowedFilePath`. -/
def inAllowedRoot (cfg : SbConfig) (p : String) : Bool :=
  [cfg.workspaceRoot, cfg.memoryDir, cfg.conversationsDir, cfg.sessionsDir].any
    fun root => p == root || jsStartsWithString p (root ++ "/")

/-- `isAllowedFilePath`: inside an allowed root, and the basename is neither
hidden (dot-prefixed) nor soft-deleted (`.deleted.` infix). -/
def isAllowedFilePath (cfg : SbConfig) (p : String) : Bool :=
  if !inAllowedRoot cfg p then false
  else
    let base := jsBasename p
    if isHiddenName base || jsIncludes base ".deleted." then false
    else true

/-- `getCategoryForPath`. -/
def getCategoryForPath (cfg : SbConfig) (p : String) : String :=
  if jsStartsWithString p (cfg.memoryDir ++ "/") then "Memory"
  else if jsStartsWithString p (cfg.conversationsDir ++ "/") then "Conversations"
  else if p = joinPath cfg.workspaceRoot LONG_TERM_FILE then "Long-term"
  else if jsDirname p = cfg.workspaceRoot ∧ WORKSPACE_DOCS.contains (jsBasename p) then
    "Workspace Docs"
  else if jsStartsWithString p (cfg.sessionsDir ++ "/") then "Sessions"
  else "Reports"

inductive ContentResponse where
  | err (status : Nat) (message : String)
  | ok (path name category content : String)
deriving DecidableEq, Repr

/-- File-system state consumed by the content route (`none` models a thrown
`statSync`/`readFileSync`, caught as a 500). -/
structure ContentFs where
  pathExists : String → Bool
  statIsFile : String → Option Bool
  readFile : String → Option String

/-- The `GET` handler of the content route, as a function of the `path` query
parameter (already in normalized absolute form, on which
`path.resolve(path.normalize(·))` is the identity). -/
def contentGet (cfg : SbConfig) (cfs : ContentFs) (pathParam : Option String) : ContentResponse :=
  match pathParam with
  | none => .err 400 "Path required"
  | some fp =>
    if fp = "" then .err 400 "Path required"
    else if !isAllowedFilePath cfg fp then .err 403 "Invalid path"
    else if !cfs.pathExists fp then .err 404 "File not found"
    else
      match cfs.statIsFile fp with
      | none => .err 500 "Failed to read file"
      | some false => .err 400 "Not a file"
      | some true =>
        match cfs.readFile fp with
        | none => .err 500 "Failed to read file"
        | some content => .ok fp (jsBasename fp) (getCategoryForPath cfg fp) content

/-! ## Spec-side notions and concrete instances -/

/-- Calendar validity of a `(year, month, day)` triple in the spec's sense:
one-based month in range and day within the month's length. -/
def isCalendarValidDate (y m d : Int) : Prop :=
  1 ≤ m ∧ m ≤ 12 ∧ 1 ≤ d ∧ d ≤ daysInMonth y m

instance (y m d : Int) : Decidable (isCalendarValidDate y m d) := by
  unfold isCalendarValidDate
  infer_instance

/-- Epoch milliseconds of UTC midnight starting calendar day `(y, m, d)`
(the spec's "UTC midnight-start of that calendar day"). -/
def utcMidnightMs (y m d : Int) : Int :=
  86400000 * (jsDayFromYear y + monthStartDay (isLeapYear y) (m - 1) + (d - 1))

/-- Configuration used by the concrete scanner scenarios. -/
def exampleConfig : SbConfig :=
  ⟨"/w", "/w/memory", "/w/conversations", "/w/sessions"⟩

/-- A file system whose memory directory holds only a subdirectory `sub`,
which in turn holds the plain markdown file `note.md`. -/
def nestedMemoryFs : ScanFs where
  dirListing := fun d =>
    if d = "/w/memory" then some [DirEntry.subdirE "sub"]
    else if d = "/w/memory/sub" then some [DirEntry.fileE "note.md"]
    else none
  pathExists := fun _ => false

/-- A date-string oracle that parses nothing (no general date strings occur in
the concrete scenarios). -/
def noDateParse : String → Option Int := fun _ => none

/-- Recall file contents where the only session transcript consists of a
single line on which `JSON.parse` throws. -/
def malformedSessionFs : RecallFs where
  markdownFile := fun _ => none
  sessionFile := fun _ => some [SessionLine.malformed]

/-- A snapshot whose catalog holds one session transcript file. -/
def oneSessionSnapshot : FileSnapshot :=
  ⟨1, 0, [⟨"s.jsonl", "/w/sessions/s.jsonl", "Sessions", "file"⟩]⟩

/-- The markdown content of the short-section scenario: section A is six
characters long, and a long section B follows. -/
def shortSectionContent : List Char :=
  "# A\n\nhi\n\n# B\n\nsome quite long text here".toList

def shortSectionDoc : RecallDocument :=
  ⟨"/w/memory/c.md", .markdown, "/w/memory/c.md", "c.md", .memory,
   shortSectionContent, none, none⟩

/-- The nested-heading document of the section-extraction scenario. -/
def nestedHeadingContent : List Char :=
  "# A\n\ntext1\n\n## B\n\ntext2\n\n# C\n\ntext3".toList

/-- A markdown document with no timestamp in its name. -/
def nullTimestampDoc : RecallDocument :=
  ⟨"/w/memory/note.md", .markdown, "/w/memory/note.md", "note.md", .memory,
   "hello".toList, none, none⟩

/-- A content-route file system where every path exists as a readable file. -/
def happyContentFs : ContentFs :=
  ⟨fun _ => true, fun _ => some true, fun _ => some "body"⟩

/-! ## Helper lemmas -/

theorem mem_insertAscByScore {x r : FuseResultModel} {l : List FuseResultModel} :
    x ∈ insertAscByScore r l ↔ x = r ∨ x ∈ l := by
  induction l with
  | nil => simp [insertAscByScore]
  | cons a as ih =>
    simp only [insertAscByScore]
    split
    · simp [List.mem_cons]
    · simp only [List.mem_cons, ih]
      tauto

theorem mem_sortByScore {x : FuseResultModel} {l : List FuseResultModel} :
    x ∈ sortByScore l ↔ x ∈ l := by
  induction l with
  | nil => simp [sortByScore]
  | cons a as ih =>
    have hstep : sortByScore (a :: as) = insertAscByScore a (sortByScore as) := rfl
    rw [hstep, mem_insertAscByScore]
    simp only [List.mem_cons, ih]

/-! ## Claim theorems -/

/-- C5: across every sequence of rebuilds of the File Index Service, the
published snapshot version strictly increases: the snapshot after `n + 1`
rebuilds has a strictly larger version than the snapshot after `n`. -/
theorem snapshot_version_strictly_increases
    (init : FileSnapshot) (events : List (List FileNode × Int)) (n : Nat)
    (h : n + 1 ≤ events.length) :
    (snapshotAfter init (events.take n)).version
      < (snapshotAfter init (events.take (n + 1))).version := by
  have hn : n < events.length := h
  rw [List.take_succ, List.getElem?_eq_getElem hn]
  simp only [Option.toList_some, snapshotAfter, List.foldl_append, List.foldl_cons,
    List.foldl_nil, rebuildSnapshot]
  omega

theorem snapshot_version_strictly_increases_witness :
    0 + 1 ≤ ([(([] : List FileNode), (5 : Int)), ([], 6)]).length
    ∧ (snapshotAfter ⟨0, 0, []⟩ (([(([] : List FileNode), (5 : Int)), ([], 6)]).take 0)).version
      < (snapshotAfter ⟨0, 0, []⟩ (([(([] : List FileNode), (5 : Int)), ([], 6)]).take 1)).version :=
  ⟨by decide, snapshot_version_strictly_increases ⟨0, 0, []⟩ _ 0 (by decide)⟩

/-- C4: a recall document with `timestampMs = null` passes the date filter
exactly when both `date_from` and `date_to` are unset, and when either bound
is set, no result surviving the post-search pipeline can be that document. -/
theorem null_timestamp_outside_any_date_filter
    (item : RecallDocument) (dateFromMs dateToMs : Option Int)
    (hnull : item.timestampMs = none) :
    (isWithinDateRange item dateFromMs dateToMs = true ↔ dateFromMs = none ∧ dateToMs = none)
    ∧ (∀ (rawResults : List FuseResultModel) (categoryFilter : Option (List RecallCategory))
        (limit : Nat) (r : FuseResultModel),
        (dateFromMs ≠ none ∨ dateToMs ≠ none) →
        r ∈ applyRecallFilters rawResults categoryFilter dateFromMs dateToMs limit →
        r.item ≠ item) := by
  constructor
  · unfold isWithinDateRange
    rw [hnull]
    rcases dateFromMs with _ | f <;> rcases dateToMs with _ | t <;> simp
  · intro raw cat limit r hbound hmem heq
    unfold applyRecallFilters at hmem
    have h1 := List.take_subset _ _ hmem
    rw [mem_sortByScore] at h1
    have h2 := (List.mem_filter.mp h1).2
    have h3 : isWithinDateRange r.item dateFromMs dateToMs = true := by
      rcases cat with _ | cf
      · simpa [recallResultKeep] using h2
      · have h2' : r.item.category ∈ cf ∧ isWithinDateRange r.item dateFromMs dateToMs = true := by
          simpa [recallResultKeep] using h2
        exact h2'.2
    rw [heq] at h3
    rcases dateFromMs with _ | f
    · rcases dateToMs with _ | t
      · simp at hbound
      · simp [isWithinDateRange, hnull] at h3
    · simp [isWithinDateRange, hnull] at h3

theorem null_timestamp_outside_any_date_filter_witness :
    isWithinDateRange nullTimestampDoc (some 0) none = true ↔
      (some (0 : Int) = none ∧ (none : Option Int) = none) :=
  (null_timestamp_outside_any_date_filter nullTimestampDoc (some 0) none rfl).1

/-- C9: `normalizeLimit` clamps every numeric input to the integer range
`[1, 50]` (identity inside the range, boundary outside), and falls back to
the default 10 on an absent or non-numeric value; in particular 500 ↦ 50,
0 ↦ 1 and `"abc"` ↦ 10. -/
theorem normalizeLimit_clamps :
    (∀ n : Int,
      1 ≤ normalizeLimit (some (.num n))
      ∧ normalizeLimit (some (.num n)) ≤ 50
      ∧ (1 ≤ n → n ≤ 50 → normalizeLimit (some (.num n)) = n)
      ∧ (n < 1 → normalizeLimit (some (.num n)) = 1)
      ∧ (50 < n → normalizeLimit (some (.num n)) = 50))
    ∧ normalizeLimit (some (.num 500)) = 50
    ∧ normalizeLimit (some (.num 0)) = 1
    ∧ normalizeLimit (some (.str "abc")) = 10
    ∧ normalizeLimit none = 10 := by
  refine ⟨fun n => ?_, by decide, by decide, by decide, rfl⟩
  simp only [normalizeLimit]
  omega

/-- C8: the category filter normalizes aliases case-insensitively through the
fixed alias table, so `["Reports", "workspace docs", "Memory"]` yields the
same filter set as `["Workspace", "Memory"]` — namely `{Workspace, Memory}`. -/
theorem normalizeCategories_alias_idempotent :
    normalizeCategories (some (.arr [.str "Reports", .str "workspace docs", .str "Memory"]))
      = normalizeCategories (some (.arr [.str "Workspace", .str "Memory"]))
    ∧ normalizeCategories (some (.arr [.str "Reports", .str "workspace docs", .str "Memory"]))
      = Except.ok (some [.workspace, .memory]) := by
  constructor <;> rfl

/-- C7: in `"# A\n\ntext1\n\n## B\n\ntext2\n\n# C\n\ntext3"`, a match at any
offset inside `text2` (offsets 18–22) extracts exactly section B — from the
`## B` heading up to but excluding the shallower `# C` heading. -/
theorem nested_heading_section_extraction (i : Nat) (h1 : 18 ≤ i) (h2 : i ≤ 22) :
    extractMarkdownSection nestedHeadingContent i = some "## B\n\ntext2".toList := by
  interval_cases i <;> rfl

theorem nested_heading_section_extraction_witness :
    18 ≤ 20 ∧ 20 ≤ 22
    ∧ extractMarkdownSection nestedHeadingContent 20 = some "## B\n\ntext2".toList :=
  ⟨by decide, by decide, nested_heading_section_extraction 20 (by decide) (by decide)⟩

/-- C10: a content request whose normalized path has a hidden (dot-prefixed)
basename or a basename containing the `.deleted.` marker is rejected with the
same 403 "Invalid path" error even inside an allowed root — identical to the
rejection of paths outside every configured root. -/
theorem hidden_or_deleted_in_root_rejected_403
    (cfg : SbConfig) (cfs : ContentFs) (p : String)
    (hp : p ≠ "")
    (hin : inAllowedRoot cfg p = true)
    (hbad : isHiddenName (jsBasename p) = true ∨ jsIncludes (jsBasename p) ".deleted." = true) :
    contentGet cfg cfs (some p) = .err 403 "Invalid path"
    ∧ ∀ q : String, q ≠ "" → inAllowedRoot cfg q = false →
        contentGet cfg cfs (some q) = .err 403 "Invalid path" := by
  have hdisallowed : isAllowedFilePath cfg p = false := by
    unfold isAllowedFilePath
    rw [hin]
    rcases hbad with h | h
    · simp [h]
    · simp [h]
  constructor
  · simp [contentGet, hp, hdisallowed]
  · intro q hq hqin
    have hqd : isAllowedFilePath cfg q = false := by
      simp [isAllowedFilePath, hqin]
    simp [contentGet, hq, hqd]

theorem hidden_or_deleted_in_root_rejected_403_witness :
    inAllowedRoot exampleConfig "/w/memory/.secret.md" = true
    ∧ contentGet exampleConfig happyContentFs (some "/w/memory/.secret.md")
        = .err 403 "Invalid path" :=
  ⟨by decide,
   (hidden_or_deleted_in_root_rejected_403 exampleConfig happyContentFs "/w/memory/.secret.md"
     (by decide) (by decide) (Or.inl (by decide))).1⟩

/-- C1 (amended): a full catalog rebuild includes, with category Memory, a
file descriptor for every non-hidden `.md` file *directly inside* the memory
directory (`readdirSync` is not recursive and directory entries are skipped,
so files in nested subdirectories are not cataloged — see the
counterexample). -/
theorem memory_top_level_markdown_in_catalog
    (cfg : SbConfig) (fsys : ScanFs) (entries : List DirEntry) (name : String)
    (hdir : fsys.dirListing cfg.memoryDir = some entries)
    (hmem : DirEntry.fileE name ∈ entries)
    (hhid : isHiddenName name = false)
    (hmd : jsEndsWith name ".md" = true) :
    (⟨name, joinPath cfg.memoryDir name, "Memory", "file"⟩ : FileNode)
      ∈ scanAllFiles cfg fsys := by
  unfold scanAllFiles
  simp only [List.mem_append]
  refine Or.inl (Or.inl (Or.inl (Or.inl (Or.inl ?_))))
  unfold scanMarkdownDirectory
  rw [hdir]
  refine List.mem_filterMap.mpr ⟨DirEntry.fileE name, hmem, ?_⟩
  simp [hhid, hmd]

theorem memory_top_level_markdown_in_catalog_witness :
    nestedMemoryFs.dirListing (SbConfig.mk "/w" "/w/memory/sub" "/c" "/s").memoryDir
        = some [DirEntry.fileE "note.md"]
    ∧ (⟨"note.md", joinPath "/w/memory/sub" "note.md", "Memory", "file"⟩ : FileNode)
        ∈ scanAllFiles ⟨"/w", "/w/memory/sub", "/c", "/s"⟩ nestedMemoryFs :=
  ⟨by decide,
   memory_top_level_markdown_in_catalog ⟨"/w", "/w/memory/sub", "/c", "/s"⟩ nestedMemoryFs
     [DirEntry.fileE "note.md"] "note.md" (by decide) (by decide) (by decide) (by decide)⟩

/-- C1 counterexample: `note.md` is a non-hidden `.md` file under the memory
directory tree (inside the nested subdirectory `sub`), yet no descriptor for
its path appears in the full catalog rebuild. -/
theorem nested_memory_markdown_not_in_catalog :
    nestedMemoryFs.dirListing "/w/memory/sub" = some [DirEntry.fileE "note.md"]
    ∧ isHiddenName "note.md" = false
    ∧ jsEndsWith "note.md" ".md" = true
    ∧ ∀ node ∈ scanAllFiles exampleConfig nestedMemoryFs,
        node.path ≠ "/w/memory/sub/note.md" := by
  decide

/-- C2 fold invariant: the session tally accumulated by the build loop counts
exactly the catalog entries mapped to Sessions whose path ends in `.jsonl`
(and not `.md`), independently of the parsed file contents. -/
theorem recallBuild_sessions_count_fold (dateParse : String → Option Int) (rfs : RecallFs)
    (files : List FileNode) (acc : RecallBuildAcc) :
    (files.foldl (recallBuildStep dateParse rfs) acc).totalIndexedSessions
      = acc.totalIndexedSessions
        + (files.filter (fun f =>
            decide (mapToRecallCategory f.category = some .sessions)
            && !(jsEndsWith f.path ".md") && jsEndsWith f.path ".jsonl")).length := by
  induction files generalizing acc with
  | nil => simp
  | cons f fs ih =>
    rw [List.foldl_cons, ih]
    rcases hmc : mapToRecallCategory f.category with _ | rc
    · simp [recallBuildStep, hmc, List.filter_cons]
    · by_cases hmd : jsEndsWith f.path ".md" = true
      · rcases hread : rfs.markdownFile f.path with _ | content <;>
          simp [recallBuildStep, hmc, hmd, hread, List.filter_cons]
      · by_cases hjson : jsEndsWith f.path ".jsonl" = true
        · by_cases hrc : rc = RecallCategory.sessions
          · subst hrc
            simp [recallBuildStep, hmc, hmd, hjson, List.filter_cons]
            omega
          · simp [recallBuildStep, hmc, hmd, hjson, hrc, List.filter_cons]
        · simp [recallBuildStep, hmc, hmd, hjson, List.filter_cons]

/-- C2 (amended): `totalIndexedSessions` equals the number of catalog entries
that map to the Sessions recall category and whose path ends in `.jsonl` —
every scanned transcript file is tallied, whether or not it contributes any
message document (see the counterexample for a zero-message transcript). -/
theorem totalIndexedSessions_counts_all_transcripts (dateParse : String → Option Int)
    (rfs : RecallFs) (snapshot : FileSnapshot) :
    (buildRecallSearchIndex dateParse rfs snapshot).totalIndexedSessions
      = (snapshot.files.filter (fun f =>
          decide (mapToRecallCategory f.category = some .sessions)
          && !(jsEndsWith f.path ".md") && jsEndsWith f.path ".jsonl")).length := by
  simp only [buildRecallSearchIndex]
  rw [recallBuild_sessions_count_fold]
  simp

/-- C2 counterexample: a catalog with a single session transcript whose only
line fails to parse yields zero message documents, yet
`totalIndexedSessions = 1` — not the number of transcript files that
contributed at least one message (which is 0). -/
theorem zero_message_transcript_still_counted :
    (buildRecallSearchIndex noDateParse malformedSessionFs oneSessionSnapshot).totalIndexedSessions
        = 1
    ∧ (buildRecallSearchIndex noDateParse malformedSessionFs oneSessionSnapshot).documents = [] := by
  constructor <;> rfl

/-- C3 (amended): the one-level look-ahead merge lives in *paragraph*
extraction, not section extraction.  Whenever section extraction succeeds,
the returned context is exactly the (normalized) section with nothing
appended — even when the section is heading-only or shorter than 80
characters (see the counterexample) — while paragraph extraction appends the
following blank-line-delimited block to a heading-only or sub-80-character
paragraph. -/
theorem lookahead_merge_in_paragraph_extraction :
    (∀ (item : RecallDocument) (matchIndex : Nat) (s : List Char),
      item.kind = .markdown →
      extractMarkdownSection item.content matchIndex = some s →
      buildContext item matchIndex = normalizeContext s)
    ∧ (∀ (content : List Char) (matchIndex : Nat),
        paragraphBaseOf content (safeMatchIndex content matchIndex) ≠ [] →
        (headingOnlyTest (paragraphBaseOf content (safeMatchIndex content matchIndex)) = true
          ∨ (paragraphBaseOf content (safeMatchIndex content matchIndex)).length < 80) →
        paragraphEndOf content (safeMatchIndex content matchIndex) < content.length →
        nextParagraphOf content (paragraphEndOf content (safeMatchIndex content matchIndex)) ≠ [] →
        extractMarkdownParagraph content matchIndex
          = paragraphBaseOf content (safeMatchIndex content matchIndex)
            ++ "\n\n".toList
            ++ nextParagraphOf content (paragraphEndOf content (safeMatchIndex content matchIndex))) := by
  constructor
  · intro item matchIndex s hkind hsec
    simp [buildContext, hkind, hsec]
  · intro content matchIndex hne hshort hlt hnext
    simp only [extractMarkdownParagraph]
    rw [if_neg (by simpa [List.isEmpty_iff] using hne)]
    rw [if_pos ⟨hshort, hlt⟩]
    rw [if_pos (by simpa [List.isEmpty_iff] using hnext)]

theorem lookahead_merge_in_paragraph_extraction_witness :
    extractMarkdownParagraph "short one\n\nand the second paragraph follows here".toList 2
      = "short one".toList ++ "\n\n".toList
        ++ "and the second paragraph follows here".toList :=
  lookahead_merge_in_paragraph_extraction.2
    "short one\n\nand the second paragraph follows here".toList 2
    (by decide) (by decide) (by decide) (by decide)

/-- C3 counterexample: with content `"# A\n\nhi\n\n# B\n\n..."` and a match
inside section A, the extracted section is `"# A\n\nhi"` — heading-led and
only 7 characters — yet the returned context is exactly that section, with
the following section's text *not* appended. -/
theorem short_section_returned_unmerged :
    extractMarkdownSection shortSectionContent 5 = some "# A\n\nhi".toList
    ∧ ("# A\n\nhi".toList).length < 80
    ∧ buildContext shortSectionDoc 5 = "# A\n\nhi".toList
    ∧ containsSubAux "some quite long text".toList (buildContext shortSectionDoc 5) = false := by
  refine ⟨rfl, by decide, rfl, rfl⟩

/-! ## Calendar lemmas for the date-boundary claim -/

theorem daysInYear_bounds (y : Int) : 365 ≤ daysInYear y ∧ daysInYear y ≤ 366 := by
  unfold daysInYear
  split <;> omega

theorem isLeapYear_eq_true_iff (y : Int) :
    isLeapYear y = true ↔ ((4 ∣ y ∧ ¬ 100 ∣ y) ∨ 400 ∣ y) := by
  simp [isLeapYear]

theorem jsDayFromYear_succ (y : Int) :
    jsDayFromYear (y + 1) = jsDayFromYear y + daysInYear y := by
  unfold jsDayFromYear daysInYear
  cases hb : isLeapYear y with
  | false =>
    have hprop : ¬ ((4 ∣ y ∧ ¬ 100 ∣ y) ∨ 400 ∣ y) := by
      rw [← isLeapYear_eq_true_iff, hb]
      simp
    simp only [Bool.false_eq_true, if_false]
    omega
  | true =>
    have hprop := (isLeapYear_eq_true_iff y).mp hb
    simp only [if_true]
    omega

theorem jsDayFromYear_mono {a b : Int} (h : a ≤ b) :
    jsDayFromYear a ≤ jsDayFromYear b := by
  unfold jsDayFromYear
  omega

theorem yearUpSearch_eq (fuel : Nat) (cur y day : Int)
    (hcur : cur ≤ y) (hfuel : y ≤ cur + fuel)
    (hy : jsDayFromYear y ≤ day) (hlast : day < jsDayFromYear (y + 1)) :
    yearUpSearch fuel cur day = y := by
  induction fuel generalizing cur with
  | zero =>
    have : cur = y := by omega
    subst this
    rfl
  | succ fuel ih =>
    simp only [yearUpSearch]
    by_cases hstep : jsDayFromYear (cur + 1) ≤ day
    · rw [if_pos hstep]
      have hcy : cur + 1 ≤ y := by
        rcases eq_or_lt_of_le hcur with h | h
        · subst h
          omega
        · omega
      exact ih (cur + 1) hcy (by omega)
    · rw [if_neg hstep]
      rcases eq_or_lt_of_le hcur with h | h
      · exact h
      · have := jsDayFromYear_mono (show cur + 1 ≤ y by omega)
        omega

theorem yearDownSearch_eq (fuel : Nat) (cur y day : Int)
    (hcur : y ≤ cur) (hfuel : cur ≤ y + fuel)
    (habove : day < jsDayFromYear (cur + 1))
    (hy : jsDayFromYear y ≤ day) (hlast : day < jsDayFromYear (y + 1)) :
    yearDownSearch fuel cur day = y := by
  induction fuel generalizing cur with
  | zero =>
    have : cur = y := by omega
    subst this
    rfl
  | succ fuel ih =>
    simp only [yearDownSearch]
    by_cases hstep : day < jsDayFromYear cur
    · rw [if_pos hstep]
      have hcy : y ≤ cur - 1 := by
        rcases eq_or_lt_of_le hcur with h | h
        · subst h
          omega
        · omega
      have hrec : day < jsDayFromYear (cur - 1 + 1) := by
        have : cur - 1 + 1 = cur := by omega
        rw [this]
        exact hstep
      exact ih (cur - 1) hcy (by omega) hrec
    · rw [if_neg hstep]
      rcases eq_or_lt_of_le hcur with h | h
      · exact h.symm
      · have := jsDayFromYear_mono (show y + 1 ≤ cur by omega)
        omega

theorem jsYearFromDay_eq (y day : Int) (hy1 : -18000 ≤ y) (hy2 : y ≤ 21000)
    (hlow : jsDayFromYear y ≤ day) (hhigh : day < jsDayFromYear (y + 1)) :
    jsYearFromDay day = y := by
  unfold jsYearFromDay
  by_cases h70 : jsDayFromYear 1970 ≤ day
  · rw [if_pos h70]
    have hcur : (1970 : Int) ≤ y := by
      by_contra hlt
      push_neg at hlt
      have := jsDayFromYear_mono (show y + 1 ≤ 1970 by omega)
      omega
    exact yearUpSearch_eq 20000 1970 y day hcur (by omega) hlow hhigh
  · rw [if_neg h70]
    have hcur : y ≤ (1969 : Int) := by
      by_contra hlt
      push_neg at hlt
      have := jsDayFromYear_mono (show (1970 : Int) ≤ y by omega)
      omega
    have habove : day < jsDayFromYear (1969 + 1) := by
      have h : (1969 : Int) + 1 = 1970 := by norm_num
      rw [h]
      omega
    exact yearDownSearch_eq 20000 1969 y day hcur (by omega) habove hlow hhigh

/-- Month-table fact (finite check): for a zero-based month `mi` and a
day-within-month offset `dm1` smaller than the month length, the day-within-
year value `monthStart + dm1` stays inside the year and recovers month `mi`. -/
theorem monthTable_valid : ∀ (leap : Bool), ∀ mi : Nat, mi < 12 → ∀ dm1 : Nat, dm1 < 31 →
    ((dm1 : Int) < monthStartDay leap ((mi : Int) + 1) - monthStartDay leap (mi : Int)) →
    (0 ≤ monthStartDay leap (mi : Int) + (dm1 : Int)
     ∧ monthStartDay leap (mi : Int) + (dm1 : Int) < (if leap then (366 : Int) else 365)
     ∧ monthFromDayWithinYear leap (monthStartDay leap (mi : Int) + (dm1 : Int))
        = (mi : Int)) := by
  decide

set_option maxRecDepth 40000 in
/-- Month-table fact (finite check): the recovered month index is always in
`[0, 11]` for the day-within-year values reachable from two-digit fields. -/
theorem monthTable_range : ∀ (leap : Bool), ∀ dwyN : Nat, dwyN < 434 →
    (0 ≤ monthFromDayWithinYear leap (dwyN : Int)
     ∧ monthFromDayWithinYear leap (dwyN : Int) ≤ 11) := by
  decide

/-- Month-table fact (finite check): one day before the start of month `mi`
the recovered month is `mi - 1`. -/
theorem monthTable_prev : ∀ (leap : Bool), ∀ mi : Nat, mi < 12 → 1 ≤ mi →
    monthFromDayWithinYear leap (monthStartDay leap (mi : Int) - 1)
      = (mi : Int) - 1 := by
  decide

set_option maxRecDepth 40000 in
/-- Month-table fact (finite check): a day-within-year at or beyond the start
of month `mi + 1` never recovers month `mi`. -/
theorem monthTable_overflow : ∀ (leap : Bool), ∀ mi : Nat, mi < 12 → ∀ dwyN : Nat, dwyN < 434 →
    monthStartDay leap ((mi : Int) + 1) ≤ (dwyN : Int) →
    (dwyN : Int) < (if leap then (366 : Int) else 365) →
    ¬ monthFromDayWithinYear leap (dwyN : Int) = (mi : Int) := by
  decide

/-- Month-table fact (finite check): the last day of the year recovers
December. -/
theorem monthTable_lastday : ∀ (leap : Bool),
    monthFromDayWithinYear leap ((if leap then (366 : Int) else 365) - 1) = 11 := by
  decide

/-- Month-table fact (finite check): bounds of the cumulative month starts. -/
theorem monthTable_startBounds : ∀ (leap : Bool), ∀ mi : Nat, mi < 13 →
    (0 ≤ monthStartDay leap (mi : Int)
     ∧ (mi < 12 → monthStartDay leap (mi : Int) ≤ 335)
     ∧ (1 ≤ mi → 31 ≤ monthStartDay leap (mi : Int))
     ∧ (mi < 12 → monthStartDay leap (mi : Int) < (if leap then (366 : Int) else 365))) := by
  decide

theorem monthStartDay_twelve : ∀ (leap : Bool),
    monthStartDay leap 12 = (if leap then (366 : Int) else 365) := by
  decide

theorem daysInYear_eq_ite (y : Int) :
    daysInYear y = (if isLeapYear y then (366 : Int) else 365) := rfl

theorem monthStartDay_zero_le : ∀ leap : Bool, monthStartDay leap 0 = 0 := by
  decide

/-- Month-table fact (finite check): every month is 28 to 31 days long. -/
theorem monthTable_monthLength : ∀ (leap : Bool), ∀ mi : Nat, mi < 12 →
    (28 ≤ monthStartDay leap ((mi : Int) + 1) - monthStartDay leap (mi : Int)
     ∧ monthStartDay leap ((mi : Int) + 1) - monthStartDay leap (mi : Int) ≤ 31) := by
  decide

/-- Year recovery when the day lies within year `ym`. -/
theorem yearOfDay_within (ym dwy : Int) (h1 : -17000 ≤ ym) (h2 : ym ≤ 20000)
    (h3 : 0 ≤ dwy) (h4 : dwy < daysInYear ym) :
    jsYearFromDay (jsDayFromYear ym + dwy) = ym := by
  apply jsYearFromDay_eq ym _ (by omega) (by omega) (by omega)
  rw [jsDayFromYear_succ]
  omega

/-- Year recovery when the day overflows year `ym` into year `ym + 1`. -/
theorem yearOfDay_next (ym dwy : Int) (h1 : -17000 ≤ ym) (h2 : ym ≤ 20000)
    (h3 : daysInYear ym ≤ dwy) (h4 : dwy < daysInYear ym + daysInYear (ym + 1)) :
    jsYearFromDay (jsDayFromYear ym + dwy) = ym + 1 := by
  apply jsYearFromDay_eq (ym + 1) _ (by omega) (by omega)
  · rw [jsDayFromYear_succ]
    omega
  · rw [jsDayFromYear_succ, jsDayFromYear_succ]
    omega

/-- Year recovery one day before the start of year `ym`. -/
theorem yearOfDay_prev (ym : Int) (h1 : -17000 ≤ ym) (h2 : ym ≤ 20000) :
    jsYearFromDay (jsDayFromYear ym - 1) = ym - 1 := by
  have hsub : ym - 1 + 1 = ym := by omega
  have hs := jsDayFromYear_succ (ym - 1)
  rw [hsub] at hs
  have hb := daysInYear_bounds (ym - 1)
  apply jsYearFromDay_eq (ym - 1) _ (by omega) (by omega)
  · omega
  · rw [hsub]
    omega

/-- Unfolding of the day-within-year once the recovered year is known. -/
theorem jsDayWithinYear_of_year (day Y : Int) (h : jsYearFromDay day = Y) :
    jsDayWithinYear day = day - jsDayFromYear Y := by
  unfold jsDayWithinYear
  rw [h]

/-- Core equivalence behind the date-boundary validation: for a year field of
at least 0100 and two-digit month/day fields, the
`getUTCFullYear/getUTCMonth/getUTCDate` round-trip over
`Date.UTC(year, month - 1, day)` succeeds exactly for calendar-valid dates. -/
theorem roundtrip_iff_calendar_valid (y m d : Int)
    (hy1 : 100 ≤ y) (hy2 : y ≤ 9999)
    (hm0 : 0 ≤ m) (hm99 : m ≤ 99) (hd0 : 0 ≤ d) (hd99 : d ≤ 99) :
    (jsYearFromDay (jsMakeDay y (m - 1) d) = y
      ∧ jsMonthFromDay (jsMakeDay y (m - 1) d) = m - 1
      ∧ jsDateFromDay (jsMakeDay y (m - 1) d) = d)
    ↔ isCalendarValidDate y m d := by
  by_cases hm112 : 1 ≤ m ∧ m ≤ 12
  · -- month field in range: the make-day is year y with day-within-year MS(m-1)+(d-1)
    have hdiv : (m - 1) / 12 = 0 := by omega
    have hmod : (m - 1) % 12 = m - 1 := by omega
    have hmake : jsMakeDay y (m - 1) d
        = jsDayFromYear y + (monthStartDay (isLeapYear y) (m - 1) + (d - 1)) := by
      simp only [jsMakeDay, hdiv, hmod, add_zero]
      omega
    obtain ⟨miN, hmiN⟩ : ∃ n : Nat, (n : Int) = m - 1 := ⟨(m - 1).toNat, by omega⟩
    have hmiN12 : miN < 12 := by omega
    have hsb := monthTable_startBounds (isLeapYear y) miN (by omega)
    rw [hmiN] at hsb
    by_cases hdval : 1 ≤ d ∧ d ≤ daysInMonth y m
    · -- calendar-valid: the round-trip succeeds
      obtain ⟨dm1N, hdm1N⟩ : ∃ n : Nat, (n : Int) = d - 1 := ⟨(d - 1).toNat, by omega⟩
      have hdim : (dm1N : Int)
          < monthStartDay (isLeapYear y) ((miN : Int) + 1) - monthStartDay (isLeapYear y) (miN : Int) := by
        have hd2 := hdval.2
        unfold daysInMonth at hd2
        rw [hmiN, hdm1N]
        have hm1 : m - 1 + 1 = m := by omega
        rw [hm1]
        omega
      have hdm31 : dm1N < 31 := by
        have hlen := monthTable_monthLength (isLeapYear y) miN hmiN12
        have hd2 := hdval.2
        unfold daysInMonth at hd2
        rw [hmiN] at hlen
        have hm1 : m - 1 + 1 = m := by omega
        rw [hm1] at hlen
        omega
      have hv := monthTable_valid (isLeapYear y) miN hmiN12 dm1N hdm31 hdim
      rw [hmiN, hdm1N] at hv
      obtain ⟨hv0, hv1, hv2⟩ := hv
      have hyear : jsYearFromDay (jsMakeDay y (m - 1) d) = y := by
        rw [hmake]
        exact yearOfDay_within y _ (by omega) (by omega) hv0
          (by rw [daysInYear_eq_ite]; exact hv1)
      have hdwy : jsDayWithinYear (jsMakeDay y (m - 1) d)
          = monthStartDay (isLeapYear y) (m - 1) + (d - 1) := by
        rw [jsDayWithinYear_of_year _ _ hyear, hmake]
        omega
      have hmonth : jsMonthFromDay (jsMakeDay y (m - 1) d) = m - 1 := by
        unfold jsMonthFromDay
        rw [hyear, hdwy]
        exact hv2
      have hdate : jsDateFromDay (jsMakeDay y (m - 1) d) = d := by
        unfold jsDateFromDay
        rw [hyear, hdwy, hmonth]
        omega
      constructor
      · intro _
        exact ⟨hm112.1, hm112.2, hdval.1, hdval.2⟩
      · intro _
        exact ⟨hyear, hmonth, hdate⟩
    · -- month in range but day calendar-invalid: the round-trip fails
      constructor
      · rintro ⟨hyr, hmo, hda⟩
        exfalso
        by_cases hdz : d = 0
        · subst hdz
          by_cases hm1 : m = 1
          · subst hm1
            have hms0 := monthStartDay_zero_le (isLeapYear y)

            have hmake0 : jsMakeDay y (1 - 1) 0 = jsDayFromYear y - 1 := by
              rw [hmake]
              norm_num at hms0 ⊢
              omega
            rw [hmake0] at hyr
            rw [yearOfDay_prev y (by omega) (by omega)] at hyr
            omega
          · -- 2 ≤ m, d = 0: previous month recovered
            have hmi1 : 1 ≤ miN := by omega
            have hprev := monthTable_prev (isLeapYear y) miN hmiN12 hmi1
            rw [hmiN] at hprev
            have hyear : jsYearFromDay (jsMakeDay y (m - 1) 0) = y := by
              rw [hmake]
              have h31 := hsb.2.2.1 hmi1
              exact yearOfDay_within y _ (by omega) (by omega) (by omega)
                (by rw [daysInYear_eq_ite]; omega)
            have hdwy : jsDayWithinYear (jsMakeDay y (m - 1) 0)
                = monthStartDay (isLeapYear y) (m - 1) - 1 := by
              rw [jsDayWithinYear_of_year _ _ hyear, hmake]
              omega
            rw [show jsMonthFromDay (jsMakeDay y (m - 1) 0)
                = monthFromDayWithinYear (isLeapYear (jsYearFromDay (jsMakeDay y (m - 1) 0)))
                    (jsDayWithinYear (jsMakeDay y (m - 1) 0)) from rfl,
              hyear, hdwy, hprev] at hmo
            omega
        · -- 1 ≤ d but d exceeds the month length
          have hd1 : 1 ≤ d := by omega
          have hdbig : daysInMonth y m < d := by
            rcases not_and_or.mp hdval with h | h
            · omega
            · omega
          have hdimdef : daysInMonth y m
              = monthStartDay (isLeapYear y) m - monthStartDay (isLeapYear y) (m - 1) := rfl
          by_cases hin : monthStartDay (isLeapYear y) (m - 1) + (d - 1) < daysInYear y
          · have hyear : jsYearFromDay (jsMakeDay y (m - 1) d) = y := by
              rw [hmake]
              exact yearOfDay_within y _ (by omega) (by omega) (by omega) hin
            have hdwy : jsDayWithinYear (jsMakeDay y (m - 1) d)
                = monthStartDay (isLeapYear y) (m - 1) + (d - 1) := by
              rw [jsDayWithinYear_of_year _ _ hyear, hmake]
              omega
            obtain ⟨dwyN, hdwyN⟩ : ∃ n : Nat,
                (n : Int) = monthStartDay (isLeapYear y) (m - 1) + (d - 1) :=
              ⟨(monthStartDay (isLeapYear y) (m - 1) + (d - 1)).toNat, by omega⟩
            have hover := monthTable_overflow (isLeapYear y) miN hmiN12 dwyN
              (by omega)
              (by
                rw [hdwyN, hmiN]
                have hm1 : m - 1 + 1 = m := by omega
                rw [hm1]
                omega)
              (by rw [hdwyN, ← daysInYear_eq_ite]; exact hin)
            apply hover
            rw [hdwyN, hmiN, ← hdwy]
            rw [show jsMonthFromDay (jsMakeDay y (m - 1) d)
                = monthFromDayWithinYear (isLeapYear (jsYearFromDay (jsMakeDay y (m - 1) d)))
                    (jsDayWithinYear (jsMakeDay y (m - 1) d)) from rfl, hyear] at hmo
            exact hmo
          · have hb1 := daysInYear_bounds y
            have hb2 := daysInYear_bounds (y + 1)
            have hyear : jsYearFromDay (jsMakeDay y (m - 1) d) = y + 1 := by
              rw [hmake]
              exact yearOfDay_next y _ (by omega) (by omega) (by omega) (by omega)
            omega
      · intro hval
        exact absurd ⟨hval.2.2.1, hval.2.2.2⟩ hdval
  · -- month field out of range: round-trip always fails, validity always fails
    constructor
    · rintro ⟨hyr, hmo, hda⟩
      exfalso
      rcases (by omega : m = 0 ∨ 13 ≤ m) with hmz | hm13
      · -- m = 0: December of the previous year
        subst hmz
        have hdiv : ((0 : Int) - 1) / 12 = -1 := by decide
        have hmod : ((0 : Int) - 1) % 12 = 11 := by decide
        have hmake : jsMakeDay y (0 - 1) d
            = jsDayFromYear (y - 1)
              + (monthStartDay (isLeapYear (y - 1)) 11 + (d - 1)) := by
          simp only [jsMakeDay, hdiv, hmod]
          have hy' : y + -1 = y - 1 := by omega
          rw [hy']
          omega
        have hsb := monthTable_startBounds (isLeapYear (y - 1)) 11 (by omega)
        norm_num at hsb
        by_cases hin : monthStartDay (isLeapYear (y - 1)) 11 + (d - 1) < daysInYear (y - 1)
        · have hyear : jsYearFromDay (jsMakeDay y (0 - 1) d) = y - 1 := by
            rw [hmake]
            exact yearOfDay_within (y - 1) _ (by omega) (by omega) (by omega) hin
          rw [hyear] at hyr
          omega
        · have hb1 := daysInYear_bounds (y - 1)
          have hb2 := daysInYear_bounds (y - 1 + 1)
          have hyear : jsYearFromDay (jsMakeDay y (0 - 1) d) = y - 1 + 1 := by
            rw [hmake]
            exact yearOfDay_next (y - 1) _ (by omega) (by omega) (by omega) (by omega)
          have hdwy : jsDayWithinYear (jsMakeDay y (0 - 1) d)
              = monthStartDay (isLeapYear (y - 1)) 11 + (d - 1) - daysInYear (y - 1) := by
            rw [jsDayWithinYear_of_year _ _ hyear, hmake]
            have hs := jsDayFromYear_succ (y - 1)
            omega
          obtain ⟨dwyN, hdwyN⟩ : ∃ n : Nat,
              (n : Int) = monthStartDay (isLeapYear (y - 1)) 11 + (d - 1) - daysInYear (y - 1) :=
            ⟨(monthStartDay (isLeapYear (y - 1)) 11 + (d - 1) - daysInYear (y - 1)).toNat, by omega⟩
          have hrange := monthTable_range (isLeapYear (y - 1 + 1)) dwyN (by omega)
          rw [show jsMonthFromDay (jsMakeDay y (0 - 1) d)
              = monthFromDayWithinYear (isLeapYear (jsYearFromDay (jsMakeDay y (0 - 1) d)))
                  (jsDayWithinYear (jsMakeDay y (0 - 1) d)) from rfl, hyear, hdwy, ← hdwyN] at hmo
          omega
      · -- 13 ≤ m: the year advances by at least the month quotient
        have he1 : 1 ≤ (m - 1) / 12 := by omega
        have he8 : (m - 1) / 12 ≤ 8 := by omega
        obtain ⟨mnN, hmnN⟩ : ∃ n : Nat, (n : Int) = (m - 1) % 12 := ⟨((m - 1) % 12).toNat, by omega⟩
        have hmnN12 : mnN < 12 := by omega
        have hsb := monthTable_startBounds (isLeapYear (y + (m - 1) / 12)) mnN (by omega)
        rw [hmnN] at hsb
        have hmake : jsMakeDay y (m - 1) d
            = jsDayFromYear (y + (m - 1) / 12)
              + (monthStartDay (isLeapYear (y + (m - 1) / 12)) ((m - 1) % 12) + (d - 1)) := by
          simp only [jsMakeDay]
          omega
        by_cases hneg : monthStartDay (isLeapYear (y + (m - 1) / 12)) ((m - 1) % 12) + (d - 1) = -1
        · -- day 0 of January: the previous year's last day
          have hmz : monthStartDay (isLeapYear (y + (m - 1) / 12)) ((m - 1) % 12) = 0 ∧ d = 0 := by
            constructor <;> omega
          have hmn0 : (m - 1) % 12 = 0 := by
            by_contra hne
            have h1 : 1 ≤ mnN := by omega
            have := hsb.2.2.1 h1
            omega
          have hmake' : jsMakeDay y (m - 1) d = jsDayFromYear (y + (m - 1) / 12) - 1 := by
            rw [hmake]
            omega
          have hyear : jsYearFromDay (jsMakeDay y (m - 1) d) = y + (m - 1) / 12 - 1 := by
            rw [hmake']
            exact yearOfDay_prev (y + (m - 1) / 12) (by omega) (by omega)
          rw [hyear] at hyr
          -- the year check forces (m-1)/12 = 1, i.e. m = 13 (using hmn0); then month is 11 ≠ 12
          have he : (m - 1) / 12 = 1 := by omega
          have hm13' : m = 13 := by omega
          have hdwy : jsDayWithinYear (jsMakeDay y (m - 1) d)
              = daysInYear (y + (m - 1) / 12 - 1) - 1 := by
            rw [jsDayWithinYear_of_year _ _ hyear, hmake']
            have hsub : y + (m - 1) / 12 - 1 + 1 = y + (m - 1) / 12 := by omega
            have hs := jsDayFromYear_succ (y + (m - 1) / 12 - 1)
            rw [hsub] at hs
            omega
          have hlast := monthTable_lastday (isLeapYear (y + (m - 1) / 12 - 1))
          rw [← daysInYear_eq_ite] at hlast
          rw [show jsMonthFromDay (jsMakeDay y (m - 1) d)
              = monthFromDayWithinYear (isLeapYear (jsYearFromDay (jsMakeDay y (m - 1) d)))
                  (jsDayWithinYear (jsMakeDay y (m - 1) d)) from rfl, hyear, hdwy, hlast] at hmo
          omega
        · -- the recovered year is y + quotient or y + quotient + 1, never y
          by_cases hin : monthStartDay (isLeapYear (y + (m - 1) / 12)) ((m - 1) % 12) + (d - 1)
              < daysInYear (y + (m - 1) / 12)
          · have hyear : jsYearFromDay (jsMakeDay y (m - 1) d) = y + (m - 1) / 12 := by
              rw [hmake]
              exact yearOfDay_within _ _ (by omega) (by omega) (by omega) hin
            rw [hyear] at hyr
            omega
          · have hb1 := daysInYear_bounds (y + (m - 1) / 12)
            have hb2 := daysInYear_bounds (y + (m - 1) / 12 + 1)
            have hyear : jsYearFromDay (jsMakeDay y (m - 1) d) = y + (m - 1) / 12 + 1 := by
              rw [hmake]
              exact yearOfDay_next _ _ (by omega) (by omega) (by omega) (by omega)
            rw [hyear] at hyr
            omega
    · intro hval
      exfalso
      unfold isCalendarValidDate at hval
      omega

/-- C6 (amended): for a bare `YYYY-MM-DD` date bound whose year field is at
least 0100, a calendar-valid day parses to UTC midnight-start (`date_from`)
respectively UTC 23:59:59.999 (`date_to`) of that day, and a calendar-invalid
day such as 2026-02-30 is rejected with a client error rather than rolling
over.  (Years 0000–0099 are excluded: ECMAScript `Date.UTC` interprets them
as 1900 + year, so the round-trip check rejects them even when calendar-valid
— see the counterexample.) -/
theorem date_boundary_calendar_validation (y m d : Int)
    (hy1 : 100 ≤ y) (hy2 : y ≤ 9999)
    (hm0 : 0 ≤ m) (hm99 : m ≤ 99) (hd0 : 0 ≤ d) (hd99 : d ≤ 99) :
    (isCalendarValidDate y m d →
      parseDayOnlyBoundary true y m d = Except.ok (utcMidnightMs y m d)
      ∧ parseDayOnlyBoundary false y m d = Except.ok (utcMidnightMs y m d + 86399999))
    ∧ (¬ isCalendarValidDate y m d →
      parseDayOnlyBoundary true y m d = Except.error "date_from must be a valid date"
      ∧ parseDayOnlyBoundary false y m d = Except.error "date_to must be a valid date") := by
  have hfull : jsMakeFullYear y = y := by
    unfold jsMakeFullYear
    rw [if_neg (by omega)]
  have hiff := roundtrip_iff_calendar_valid y m d hy1 hy2 hm0 hm99 hd0 hd99
  constructor
  · intro hval
    have hrt := hiff.mpr hval
    have hvalue : jsMakeDay y (m - 1) d
        = jsDayFromYear y + monthStartDay (isLeapYear y) (m - 1) + (d - 1) := by
      obtain ⟨hm1, hm12, _, _⟩ := hval
      simp only [jsMakeDay]
      have h1 : (m - 1) / 12 = 0 := by omega
      have h2 : (m - 1) % 12 = m - 1 := by omega
      rw [h1, h2, add_zero]
    constructor
    · simp only [parseDayOnlyBoundary, hfull]
      rw [if_pos hrt]
      simp only [if_true, utcMidnightMs]
      rw [hvalue]
    · simp only [parseDayOnlyBoundary, hfull]
      rw [if_pos hrt]
      simp only [Bool.false_eq_true, if_false, utcMidnightMs]
      rw [hvalue]
  · intro hinval
    have hrt : ¬ (jsYearFromDay (jsMakeDay y (m - 1) d) = y
        ∧ jsMonthFromDay (jsMakeDay y (m - 1) d) = m - 1
        ∧ jsDateFromDay (jsMakeDay y (m - 1) d) = d) :=
      fun hc => hinval (hiff.mp hc)
    constructor
    · simp only [parseDayOnlyBoundary, hfull]
      rw [if_neg hrt]
      rfl
    · simp only [parseDayOnlyBoundary, hfull]
      rw [if_neg hrt]
      rfl

/-- C6 counterexample: "0050-01-01" is a calendar-valid bare date, yet the
boundary parser rejects it — `Date.UTC(50, 0, 1)` denotes 1950-01-01, so
`getUTCFullYear` does not round-trip to 50. -/
theorem small_year_valid_date_rejected :
    isCalendarValidDate 50 1 1
    ∧ parseDayOnlyBoundary true 50 1 1 = Except.error "date_from must be a valid date" := by
  constructor
  · decide
  · rfl

theorem date_boundary_calendar_validation_witness :
    parseDayOnlyBoundary true 2026 2 15 = Except.ok (utcMidnightMs 2026 2 15)
    ∧ parseDayOnlyBoundary true 2026 2 30 = Except.error "date_from must be a valid date" :=
  ⟨((date_boundary_calendar_validation 2026 2 15 (by norm_num) (by norm_num) (by norm_num)
      (by norm_num) (by norm_num) (by norm_num)).1 (by decide)).1,
   ((date_boundary_calendar_validation 2026 2 30 (by norm_num) (by norm_num) (by norm_num)
      (by norm_num) (by norm_num) (by norm_num)).2 (by decide)).1⟩
